import Mathlib

set_option maxHeartbeats 1000000

/-!
Verification development for the readline package (src/readline/readline.go).

The package turns a raw stream of terminal code points into completed lines of
text.  We shallowly embed the input state machine of Instance.Readline, the
history navigation helpers historyPrev / historyNext, and the showPager viewer,
all translated from src/readline/readline.go.  The Buffer and History types,
the control-code constants and the raw-mode collaborator are declared in files
of the repository that are not part of src, so they are modelled from the
design document (sections 4.2, 4.3 and 6) and marked as such.

Code points (Go runes) are modelled as natural numbers; the input stream is a
list of code points, where running off the end of the list models a read
failure on the stream (the source treats any read error as end of input).
-/

namespace ReadlinePkg

abbrev Rune := Nat

/-! ### Control-code constants

Modelled from the spec: the specific control-code values follow conventional
ANSI terminal semantics (section 6 of the design document); the constants file
of the repository is not under src.  The values below are the standard ASCII
control codes and CSI final bytes. -/

def CharNull : Rune := 0
def CharLineStart : Rune := 1
def CharBackward : Rune := 2
def CharInterrupt : Rune := 3
def CharDelete : Rune := 4
def CharLineEnd : Rune := 5
def CharForward : Rune := 6
def CharCtrlH : Rune := 8
def CharTab : Rune := 9
def CharCtrlJ : Rune := 10
def CharKill : Rune := 11
def CharCtrlL : Rune := 12
def CharEnter : Rune := 13
def CharNext : Rune := 14
def CharCtrlO : Rune := 15
def CharPrev : Rune := 16
def CharCtrlU : Rune := 21
def CharCtrlW : Rune := 23
def CharCtrlZ : Rune := 26
def CharEsc : Rune := 27
def CharSpace : Rune := 32
def CharEscapeEx : Rune := 91
def CharBackspace : Rune := 127
def CharBracketedPaste : Rune := 50
def KeyDel : Rune := 51
def KeyUp : Rune := 65
def KeyDown : Rune := 66
def KeyRight : Rune := 67
def KeyLeft : Rune := 68
def MetaEnd : Rune := 70
def MetaStart : Rune := 72

/-- The bracketed-paste start marker, the three code points of "00~". -/
def CharBracketedPasteStart : List Rune := [48, 48, 126]

/-- The bracketed-paste end marker, the three code points of "01~". -/
def CharBracketedPasteEnd : List Rune := [48, 49, 126]

/-- The Prompt configuration, src lines 13-19. -/
structure Prompt where
  Prompt : String
  AltPrompt : String
  Placeholder : String
  AltPlaceholder : String
  UseAlt : Bool
deriving DecidableEq

/-- The prompt method of Prompt, src lines 21-26. -/
def Prompt.promptSel (p : ReadlinePkg.Prompt) : String :=
  if p.UseAlt then p.AltPrompt else p.Prompt

/-- The placeholder method of Prompt, src lines 28-33. -/
def Prompt.placeholderSel (p : ReadlinePkg.Prompt) : String :=
  if p.UseAlt then p.AltPlaceholder else p.Placeholder

/-- The prompt printed by Readline, src lines 78-83: the alt prompt is forced
while pasting. -/
def promptShown (p : ReadlinePkg.Prompt) (pasting : Bool) : String :=
  if pasting then p.AltPrompt else p.promptSel

/-- Whether the placeholder is shown on an empty line, src line 102: not
while pasting, unless in multiline (alt) mode. -/
def placeholderShown (p : ReadlinePkg.Prompt) (pasting : Bool) : Bool :=
  !pasting || p.UseAlt

/-! ### LineBuffer -/

/-- Modelled from the spec: the LineBuffer component (section 4.2); the Buffer
type of the repository is not under src.  It owns the text of the current line
as a sequence of code points together with a cursor index in [0, length]. -/
structure Buffer where
  text : List Rune
  cursor : Nat
deriving DecidableEq

/-- Modelled from the spec: whitespace classification of code points used for
word boundaries. -/
def isSpaceRune (r : Rune) : Bool := r = 32 || r = 9

/-- Scan left from index i while the code point before the index satisfies p. -/
def scanLeft (p : Rune → Bool) (text : List Rune) : Nat → Nat
  | 0 => 0
  | i + 1 => if p (text.getD i 0) then scanLeft p text i else i + 1

/-- Index of the start of the word before the cursor: skip whitespace
leftwards, then skip non-whitespace leftwards. -/
def wordStart (text : List Rune) (c : Nat) : Nat :=
  scanLeft (fun r => !isSpaceRune r) text (scanLeft isSpaceRune text c)

/-- Scan right from index i while the code point at the index satisfies p,
with fuel bounding the scan. -/
def scanRight (p : Rune → Bool) (text : List Rune) : Nat → Nat → Nat
  | 0, i => i
  | fuel + 1, i =>
      if i < text.length ∧ p (text.getD i 0) then scanRight p text fuel (i + 1)
      else i

/-- Index of the end of the word after the cursor: skip whitespace rightwards,
then skip non-whitespace rightwards. -/
def wordEnd (text : List Rune) (c : Nat) : Nat :=
  scanRight (fun r => !isSpaceRune r) text text.length
    (scanRight isSpaceRune text text.length c)

/-- Modelled from the spec: is_empty() of the LineBuffer. -/
def Buffer.IsEmpty (b : Buffer) : Bool := b.text.isEmpty

/-- Modelled from the spec: display_width() of the LineBuffer, the number of
terminal columns of the text (one column per code point in this model). -/
def Buffer.DisplaySize (b : Buffer) : Nat := b.text.length

/-- Modelled from the spec: insert(code_point) at the cursor. -/
def Buffer.Add (b : Buffer) (r : Rune) : Buffer :=
  ⟨b.text.take b.cursor ++ r :: b.text.drop b.cursor, b.cursor + 1⟩

/-- Modelled from the spec: delete_before() (backspace), a no-op at the left
edge. -/
def Buffer.Remove (b : Buffer) : Buffer :=
  if 0 < b.cursor then ⟨b.text.take (b.cursor - 1) ++ b.text.drop b.cursor, b.cursor - 1⟩
  else b

/-- Modelled from the spec: delete_at() (forward delete), a no-op at the right
edge. -/
def Buffer.Delete (b : Buffer) : Buffer :=
  if b.cursor < b.text.length then ⟨b.text.take b.cursor ++ b.text.drop (b.cursor + 1), b.cursor⟩
  else b

/-- Modelled from the spec: move_left() by one code point, clamped. -/
def Buffer.MoveLeft (b : Buffer) : Buffer :=
  if 0 < b.cursor then ⟨b.text, b.cursor - 1⟩ else b

/-- Modelled from the spec: move_right() by one code point, clamped. -/
def Buffer.MoveRight (b : Buffer) : Buffer :=
  if b.cursor < b.text.length then ⟨b.text, b.cursor + 1⟩ else b

/-- Modelled from the spec: move_to_start(). -/
def Buffer.MoveToStart (b : Buffer) : Buffer := ⟨b.text, 0⟩

/-- Modelled from the spec: move_to_end(). -/
def Buffer.MoveToEnd (b : Buffer) : Buffer := ⟨b.text, b.text.length⟩

/-- Modelled from the spec: replace(new_text), wholesale substitution used by
history recall, cursor snaps to the end. -/
def Buffer.Replace (_b : Buffer) (t : List Rune) : Buffer := ⟨t, t.length⟩

/-- Modelled from the spec: delete_to_end() (kill to end of line). -/
def Buffer.DeleteRemaining (b : Buffer) : Buffer := ⟨b.text.take b.cursor, b.cursor⟩

/-- Modelled from the spec: delete_to_start() (kill to start of line). -/
def Buffer.DeleteBefore (b : Buffer) : Buffer := ⟨b.text.drop b.cursor, 0⟩

/-- Modelled from the spec: move_left_word(). -/
def Buffer.MoveLeftWord (b : Buffer) : Buffer := ⟨b.text, wordStart b.text b.cursor⟩

/-- Modelled from the spec: move_right_word(). -/
def Buffer.MoveRightWord (b : Buffer) : Buffer := ⟨b.text, wordEnd b.text b.cursor⟩

/-- Modelled from the spec: delete-word, removing the word before the cursor. -/
def Buffer.DeleteWord (b : Buffer) : Buffer :=
  ⟨b.text.take (wordStart b.text b.cursor) ++ b.text.drop b.cursor, wordStart b.text b.cursor⟩

/-! ### History -/

/-- Modelled from the spec: the HistoryLog (section 4.3); the History type of
the repository is not under src.  An append-only log of submitted lines plus a
position Pos in [0, len], where Pos = len means not currently browsing. -/
structure History where
  Buf : List (List Rune)
  Pos : Nat
deriving DecidableEq

/-- Number of entries in the log. -/
def History.Size (h : History) : Nat := h.Buf.length

/-- Modelled from the spec: record(line) appends the submitted line and resets
Pos to the new length (not browsing). -/
def History.Add (h : History) (line : List Rune) : History :=
  { Buf := h.Buf ++ [line], Pos := h.Buf.length + 1 }

/-- Modelled from the spec: the prev operation decrements Pos and returns the
entry at the new position.  The caller (historyPrev in src) guards Pos > 0. -/
def History.Prev (h : History) : List Rune × History :=
  (h.Buf.getD (h.Pos - 1) [], { h with Pos := h.Pos - 1 })

/-- Modelled from the spec: the next operation increments Pos when browsing and
returns the entry there, or an empty line once Pos reaches the length (the
caller in src then restores the draft).  The caller guards Pos < len. -/
def History.Next (h : History) : List Rune × History :=
  if h.Pos < h.Size then
    (if h.Pos + 1 < h.Size then h.Buf.getD (h.Pos + 1) [] else [],
      { h with Pos := h.Pos + 1 })
  else ([], h)

/-- Embeds Instance.historyPrev, src/readline/readline.go lines 273-280: when
Pos > 0, capture the live draft into currentLineBuf on the first step of a
browsing session, step the history back and load the entry into the buffer. -/
def historyPrev (buf : Buffer) (hist : History) (clb : List Rune) :
    Buffer × History × List Rune :=
  if 0 < hist.Pos then
    let clb2 := if hist.Pos = hist.Size then buf.text else clb
    let r := hist.Prev
    (buf.Replace r.1, r.2, clb2)
  else (buf, hist, clb)

/-- Embeds Instance.historyNext, src/readline/readline.go lines 282-289: when
Pos < len, step the history forward and load the entry; when Pos reaches len,
restore the saved draft into the buffer. -/
def historyNext (buf : Buffer) (hist : History) (clb : List Rune) :
    Buffer × History × List Rune :=
  if hist.Pos < hist.Size then
    let r := hist.Next
    let buf1 := buf.Replace r.1
    let buf2 := if r.2.Pos = r.2.Size then buf1.Replace clb else buf1
    (buf2, r.2, clb)
  else (buf, hist, clb)

/-! ### Pager

showPager (src/readline/readline.go lines 317-423) is fully contained in src.
Its offset updates are factored into pagerApply, one case per command of the
input switch, and the input-consuming loop is showPager below. -/

/-- The commands of the pager input switch. -/
inductive PagerCmd where
  | lineDown
  | lineUp
  | pageDown
  | pageUp
  | top
  | bottom
deriving DecidableEq

/-- The offset updates of the showPager switch, src lines 359-421, with N the
number of content lines and H the viewport height (termHeight).  Each arm is
the body of the corresponding case of the source switch. -/
def pagerApply (N H offset : Int) : PagerCmd → Int
  | .lineDown => if offset < N - H then offset + 1 else offset
  | .lineUp => if offset > 0 then offset - 1 else offset
  | .pageDown =>
      let o := offset + H
      if o > N - H then (if N - H < 0 then 0 else N - H) else o
  | .pageUp =>
      let o := offset - H
      if o < 0 then 0 else o
  | .top => 0
  | .bottom => if N - H < 0 then 0 else N - H

/-- The key classification of the showPager input switch, src lines 359-390:
one constructor per case label of the switch (quit keys q, Q, Ctrl+O and
interrupt; the scroll commands; the escape introducer for arrow-key sequences;
everything else ignored). -/
inductive PagerKey where
  | quit
  | cmd (c : PagerCmd)
  | escIntro
  | other
deriving DecidableEq

/-- Which case of the showPager switch the code point read at the top of the
pager loop selects, src lines 359-390. -/
def pagerClassify (r : Rune) : PagerKey :=
  if r = 113 ∨ r = 81 ∨ r = CharCtrlO ∨ r = CharInterrupt then .quit
  else if r = 106 ∨ r = CharCtrlJ ∨ r = CharEnter then .cmd .lineDown
  else if r = 107 then .cmd .lineUp
  else if r = CharSpace ∨ r = CharForward then .cmd .pageDown
  else if r = CharBackward then .cmd .pageUp
  else if r = 103 then .cmd .top
  else if r = 71 then .cmd .bottom
  else if r = CharEsc then .escIntro
  else .other

/-- The escape-sequence arm of the pager, src lines 390-420: the inner reads
ignore read errors (an exhausted stream yields code point 0 there and consumes
nothing); arrow up/down scroll by a line, the 5~/6~ sequences page (consuming
the trailing tilde), anything else is ignored.  Returns the new offset and the
remaining input. -/
def pagerEsc (N H offset : Int) (rest : List Rune) : Int × List Rune :=
  match rest with
  | [] => (offset, [])
  | r2 :: rest2 =>
    if r2 = 91 then
      match rest2 with
      | [] => (offset, [])
      | r3 :: rest3 =>
        if r3 = 65 then (pagerApply N H offset .lineUp, rest3)
        else if r3 = 66 then (pagerApply N H offset .lineDown, rest3)
        else if r3 = 53 then (pagerApply N H offset .pageUp, rest3.drop 1)
        else if r3 = 54 then (pagerApply N H offset .pageDown, rest3.drop 1)
        else (offset, rest3)
    else (offset, rest2)

/-- One iteration of the showPager input switch, src lines 354-421: r is the
code point read at the top of the loop and rest the input after it.  Returns
none on a quit key; otherwise the new offset and the input remaining after any
extra code points the escape-sequence arm consumed. -/
def pagerStep (N H offset : Int) (r : Rune) (rest : List Rune) :
    Option (Int × List Rune) :=
  match pagerClassify r with
  | .quit => none
  | .cmd c => some (pagerApply N H offset c, rest)
  | .escIntro => some (pagerEsc N H offset rest)
  | .other => some (offset, rest)

theorem pagerEsc_rest_le (N H offset : Int) (rest : List Rune) :
    (pagerEsc N H offset rest).2.length ≤ rest.length := by
  unfold pagerEsc
  repeat' split
  all_goals simp [List.length_drop]
  all_goals omega

theorem pagerStep_rest_le (N H offset : Int) (r : Rune) (rest : List Rune)
    (p : Int × List Rune) (h : pagerStep N H offset r rest = some p) :
    p.2.length ≤ rest.length := by
  unfold pagerStep at h
  cases hc : pagerClassify r <;> rw [hc] at h <;> cases h
  · simp
  · have := pagerEsc_rest_le N H offset rest
    omega
  · simp

/-- The input-consuming loop of showPager, src lines 333-422: consumes code
points (updating the internal offset) until a quit key or a read failure at
the top of the loop, and returns the input remaining after the pager exits. -/
def showPager (N H offset : Int) (input : List Rune) : List Rune :=
  match input with
  | [] => []
  | r :: rest =>
    match hp : pagerStep N H offset r rest with
    | none => rest
    | some p => showPager N H p.1 p.2
termination_by input.length
decreasing_by
  simp only [List.length_cons]
  exact Nat.lt_succ_of_le (pagerStep_rest_le _ _ _ _ _ _ (by assumption))

theorem showPager_length_le (N H offset : Int) (input : List Rune) :
    (showPager N H offset input).length ≤ input.length := by
  induction offset, input using showPager.induct N H with
  | case1 offset => simp [showPager]
  | case2 offset r rest hp =>
      rw [showPager, hp]
      simp
  | case3 offset r rest p hp ih =>
      rw [showPager, hp]
      have := pagerStep_rest_le N H offset r rest p hp
      simp only [List.length_cons]
      omega

/-- strings.Split(content, newline), the content lines of the pager,
src line 318. -/
def pagerLines (content : List Rune) : List (List Rune) :=
  content.splitOn 10

/-! ### The Readline input loop

Instance.Readline, src lines 67-248.  The loop state is the line buffer, the
history, the currentLineBuf draft slot and the esc / escex / metaDel / Pasting
booleans; the ToolOutput string and the pager viewport height are read-only
during one call and are passed as parameters. -/

/-- The mutable state of one Readline invocation: the Buffer (buf), the
History (hist), currentLineBuf (clb, src line 98), the esc / escex / metaDel
flags (src lines 94-96) and the Pasting flag of the Instance. -/
structure RLState where
  buf : Buffer
  hist : History
  clb : List Rune
  esc : Bool
  escex : Bool
  metaDel : Bool
  Pasting : Bool
deriving DecidableEq

/-- The outcome of one Readline call: a completed line (Enter, src line 237),
end of input (read failure or forward delete on an empty line), an interrupt
(src line 181), or the Ctrl+Z suspension path (src line 228, handled by a
collaborator outside src). -/
inductive RLOut where
  | line (text : List Rune)
  | eof
  | interrupt
  | suspend
deriving DecidableEq

/-- The case labels of the escex switch, src lines 121-157: one constructor
per recognized key, plus unknown for the default (skip) case. -/
inductive EscexKey where
  | up
  | down
  | left
  | right
  | paste
  | del
  | home
  | endk
  | unknown
deriving DecidableEq

/-- Which case of the escex switch (src lines 121-157) a code point selects. -/
def escexClassify (r : Rune) : EscexKey :=
  if r = KeyUp then .up
  else if r = KeyDown then .down
  else if r = KeyLeft then .left
  else if r = KeyRight then .right
  else if r = CharBracketedPaste then .paste
  else if r = KeyDel then .del
  else if r = MetaStart then .home
  else if r = MetaEnd then .endk
  else .unknown

/-- The case labels of the esc switch, src lines 162-171: word moves, delete
word, the second escape introducer, and the silent default. -/
inductive EscKey where
  | wordLeft
  | wordRight
  | delWord
  | escEx
  | unknown
deriving DecidableEq

/-- Which case of the esc switch (src lines 162-171) a code point selects;
98 and 102 are the code points of b and f. -/
def escClassify (r : Rune) : EscKey :=
  if r = 98 then .wordLeft
  else if r = 102 then .wordRight
  else if r = CharBackspace then .delWord
  else if r = CharEscapeEx then .escEx
  else .unknown

/-- The case labels of the normal-state switch, src lines 175-246: one
constructor per case, plus other for the default case. -/
inductive NormalKey where
  | null
  | escIntro
  | interrupt
  | histPrev
  | histNext
  | lineStart
  | lineEnd
  | moveBack
  | moveForward
  | backspace
  | tab
  | del
  | kill
  | killToStart
  | clearScreen
  | pagerKey
  | delWord
  | suspendKey
  | enter
  | other
deriving DecidableEq

/-- Which case of the normal-state switch (src lines 175-246) a code point
selects. -/
def normalClassify (r : Rune) : NormalKey :=
  if r = CharNull then .null
  else if r = CharEsc then .escIntro
  else if r = CharInterrupt then .interrupt
  else if r = CharPrev then .histPrev
  else if r = CharNext then .histNext
  else if r = CharLineStart then .lineStart
  else if r = CharLineEnd then .lineEnd
  else if r = CharBackward then .moveBack
  else if r = CharForward then .moveForward
  else if r = CharBackspace ∨ r = CharCtrlH then .backspace
  else if r = CharTab then .tab
  else if r = CharDelete then .del
  else if r = CharKill then .kill
  else if r = CharCtrlU then .killToStart
  else if r = CharCtrlL then .clearScreen
  else if r = CharCtrlO then .pagerKey
  else if r = CharCtrlW then .delWord
  else if r = CharCtrlZ then .suspendKey
  else if r = CharEnter ∨ r = CharCtrlJ then .enter
  else .other

/-- historyPrev applied to the loop state, src line 123 and line 183. -/
def applyHistPrev (s : RLState) : RLState :=
  { s with buf := (historyPrev s.buf s.hist s.clb).1,
           hist := (historyPrev s.buf s.hist s.clb).2.1,
           clb := (historyPrev s.buf s.hist s.clb).2.2 }

/-- historyNext applied to the loop state, src line 125 and line 185. -/
def applyHistNext (s : RLState) : RLState :=
  { s with buf := (historyNext s.buf s.hist s.clb).1,
           hist := (historyNext s.buf s.hist s.clb).2.1,
           clb := (historyNext s.buf s.hist s.clb).2.2 }

/-- The CharTab case, src lines 196-200: eight spaces inserted at the
cursor. -/
def addTab (b : Buffer) : Buffer :=
  (fun bb => Buffer.Add bb CharSpace)^[8] b

/-- The result of one iteration of the Readline loop: either the loop
continues with a new state and the remaining input, or the call returns. -/
inductive StepRes where
  | cont (s : RLState) (rest : List Rune)
  | done (out : RLOut) (s : RLState) (rest : List Rune)
deriving DecidableEq

/-- One iteration of the Readline input loop, src lines 100-247: read one code
point (an exhausted stream is a read failure and returns end of input, src
lines 114-116), then dispatch on the decoder state: the escex switch (lines
118-158), the esc switch (lines 159-173), or the normal switch (lines
175-246).  tool is the ToolOutput of the Instance and pagerH the pager
viewport height obtained from the terminal-size collaborator. -/
def step (tool : List Rune) (pagerH : Int) (s : RLState) (input : List Rune) :
    StepRes :=
  match input with
  | [] => .done .eof s []
  | r :: rest =>
    if s.escex then
      match escexClassify r with
      | .up => .cont (applyHistPrev { s with escex := false }) rest
      | .down => .cont (applyHistNext { s with escex := false }) rest
      | .left => .cont { s with escex := false, buf := s.buf.MoveLeft } rest
      | .right => .cont { s with escex := false, buf := s.buf.MoveRight } rest
      | .paste =>
        match rest with
        | c1 :: c2 :: c3 :: rest3 =>
          if [c1, c2, c3] = CharBracketedPasteStart then
            .cont { s with escex := false, Pasting := true } rest3
          else if [c1, c2, c3] = CharBracketedPasteEnd then
            .cont { s with escex := false, Pasting := false } rest3
          else .cont { s with escex := false } rest3
        | _ => .done .eof { s with escex := false } []
      | .del =>
        .cont { s with escex := false, metaDel := true, buf := if 0 < s.buf.DisplaySize then s.buf.Delete else s.buf } rest
      | .home => .cont { s with escex := false, buf := s.buf.MoveToStart } rest
      | .endk => .cont { s with escex := false, buf := s.buf.MoveToEnd } rest
      | .unknown => .cont { s with escex := false } rest
    else if s.esc then
      match escClassify r with
      | .wordLeft => .cont { s with esc := false, buf := s.buf.MoveLeftWord } rest
      | .wordRight => .cont { s with esc := false, buf := s.buf.MoveRightWord } rest
      | .delWord => .cont { s with esc := false, buf := s.buf.DeleteWord } rest
      | .escEx => .cont { s with esc := false, escex := true } rest
      | .unknown => .cont { s with esc := false } rest
    else
      match normalClassify r with
      | .null => .cont s rest
      | .escIntro => .cont { s with esc := true } rest
      | .interrupt => .done .interrupt s rest
      | .histPrev => .cont (applyHistPrev s) rest
      | .histNext => .cont (applyHistNext s) rest
      | .lineStart => .cont { s with buf := s.buf.MoveToStart } rest
      | .lineEnd => .cont { s with buf := s.buf.MoveToEnd } rest
      | .moveBack => .cont { s with buf := s.buf.MoveLeft } rest
      | .moveForward => .cont { s with buf := s.buf.MoveRight } rest
      | .backspace => .cont { s with buf := s.buf.Remove } rest
      | .tab => .cont { s with buf := addTab s.buf } rest
      | .del =>
          if 0 < s.buf.DisplaySize then .cont { s with buf := s.buf.Delete } rest
          else .done .eof s rest
      | .kill => .cont { s with buf := s.buf.DeleteRemaining } rest
      | .killToStart => .cont { s with buf := s.buf.DeleteBefore } rest
      | .clearScreen => .cont s rest
      | .pagerKey =>
          if tool = [] then .cont s rest
          else .cont s (showPager ((pagerLines tool).length : Int) pagerH 0 rest)
      | .delWord => .cont { s with buf := s.buf.DeleteWord } rest
      | .suspendKey => .done .suspend s rest
      | .enter =>
          if s.buf.text ≠ [] then
            .done (.line s.buf.text)
              { s with hist := s.hist.Add s.buf.text, buf := s.buf.MoveToEnd } rest
          else .done (.line s.buf.text) { s with buf := s.buf.MoveToEnd } rest
      | .other =>
          if s.metaDel then .cont { s with metaDel := false } rest
          else if CharSpace ≤ r ∨ r = CharEnter ∨ r = CharCtrlJ then
            .cont { s with buf := s.buf.Add r } rest
          else .cont s rest

theorem step_cont_lt {tool : List Rune} {pagerH : Int} {s : RLState}
    {input : List Rune} {s2 : RLState} {rest : List Rune}
    (h : step tool pagerH s input = .cont s2 rest) :
    rest.length < input.length := by
  cases input with
  | nil => simp [step] at h
  | cons r rest0 =>
    have hpager := showPager_length_le ((pagerLines tool).length : Int) pagerH 0 rest0
    simp only [step] at h
    repeat' split at h
    all_goals cases h
    all_goals simp only [List.length_cons]
    all_goals omega

/-- The Readline input loop, src lines 100-247: iterate step until the call
returns.  The result is the outcome, the state at return, and the input left
unconsumed on the stream. -/
def readLoop (tool : List Rune) (pagerH : Int) (s : RLState) (input : List Rune) :
    RLOut × RLState × List Rune :=
  match hstep : step tool pagerH s input with
  | .done out s2 rest => (out, s2, rest)
  | .cont s2 rest => readLoop tool pagerH s2 rest
termination_by input.length
decreasing_by exact step_cont_lt (by assumption)

theorem readLoop_done {tool : List Rune} {pagerH : Int} {s : RLState}
    {input : List Rune} {out : RLOut} {s2 : RLState} {rest : List Rune}
    (h : step tool pagerH s input = .done out s2 rest) :
    readLoop tool pagerH s input = (out, s2, rest) := by
  rw [readLoop.eq_def]
  split
  · rename_i heq
    rw [h] at heq
    cases heq
    rfl
  · rename_i heq
    rw [h] at heq
    cases heq

theorem readLoop_cont {tool : List Rune} {pagerH : Int} {s : RLState}
    {input : List Rune} {s2 : RLState} {rest : List Rune}
    (h : step tool pagerH s input = .cont s2 rest) :
    readLoop tool pagerH s input = readLoop tool pagerH s2 rest := by
  rw [readLoop.eq_def]
  split
  · rename_i heq
    rw [h] at heq
    cases heq
  · rename_i heq
    rw [h] at heq
    cases heq
    rfl

/-- The caller-visible outcome of Instance.Readline: a line with a nil error,
or one of the error values (io.EOF, ErrInterrupt, the raw-mode enable error,
the Ctrl+Z suspension result). -/
inductive ReadlineRes where
  | ok (text : List Rune)
  | eofErr
  | interruptErr
  | suspended
  | modeErr
deriving DecidableEq

/-- The initial loop state of one Readline call: a fresh empty buffer (src
line 92), a nil currentLineBuf (src line 98), all decoder flags clear (src
lines 94-96), with the history and Pasting flag of the Instance. -/
def initState (pasting : Bool) (hist : History) : RLState :=
  { buf := ⟨[], 0⟩, hist := hist, clb := [], esc := false, escex := false,
    metaDel := false, Pasting := pasting }

/-- Instance.Readline, src lines 67-248, at the level of the raw-mode
resource.  The raw-mode collaborator is modelled from the spec (section 6:
enable() returns a mode token or an error); setRawOk says whether enabling raw
mode succeeds when it is attempted.  Lines 68-76: if the terminal is not in
raw mode, enable it or return the error; lines 85-90: a deferred UnsetRawMode
clears the rawmode flag on every return path of the loop.  The second
component of the result is the rawmode flag of the terminal when the call
returns. -/
def Readline (setRawOk : Bool) (tool : List Rune) (pagerH : Int)
    (pasting : Bool) (hist : History) (rawmode : Bool) (input : List Rune) :
    ReadlineRes × Bool :=
  if ¬rawmode ∧ ¬setRawOk then (.modeErr, rawmode)
  else
    match (readLoop tool pagerH (initState pasting hist) input).1 with
    | .line t => (.ok t, false)
    | .eof => (.eofErr, false)
    | .interrupt => (.interruptErr, false)
    | .suspend => (.suspended, false)

/-! ### Helper lemmas -/

theorem normalClassify_enter : normalClassify CharEnter = .enter := by decide

theorem normalClassify_escIntro : normalClassify CharEsc = .escIntro := by decide

theorem normalClassify_interrupt : normalClassify CharInterrupt = .interrupt := by
  decide

theorem normalClassify_del : normalClassify CharDelete = .del := by decide

theorem normalClassify_pagerKey : normalClassify CharCtrlO = .pagerKey := by decide

theorem escClassify_escEx : escClassify CharEscapeEx = .escEx := by decide

theorem escexClassify_pasteKey : escexClassify CharBracketedPaste = .paste := by
  decide

theorem escexClassify_delKey : escexClassify KeyDel = .del := by decide

theorem pagerApply_bounds (N H : Int) (hH : 0 ≤ H) (off : Int) (c : PagerCmd)
    (h0 : 0 ≤ off) (h1 : off ≤ max 0 (N - H)) :
    0 ≤ pagerApply N H off c ∧ pagerApply N H off c ≤ max 0 (N - H) := by
  cases c <;> simp only [pagerApply] <;> (try split_ifs) <;> constructor <;> omega

theorem pagerApply_foldl_bounds (N H : Int) (hH : 0 ≤ H) :
    ∀ (cmds : List PagerCmd) (off : Int), 0 ≤ off → off ≤ max 0 (N - H) →
      0 ≤ cmds.foldl (pagerApply N H) off ∧
        cmds.foldl (pagerApply N H) off ≤ max 0 (N - H) := by
  intro cmds
  induction cmds with
  | nil => intro off h0 h1; exact ⟨h0, h1⟩
  | cons c cs ih =>
      intro off h0 h1
      have hc := pagerApply_bounds N H hH off c h0 h1
      simpa using ih _ hc.1 hc.2

theorem escexClassify_paste_inv {r : Rune} (h : escexClassify r = .paste) :
    r = CharBracketedPaste := by
  unfold escexClassify at h
  split_ifs at h <;> simp_all

theorem normalClassify_del_inv {r : Rune} (h : normalClassify r = .del) :
    r = CharDelete := by
  unfold normalClassify at h
  by_cases c0 : r = CharNull
  · rw [if_pos c0] at h
    exact absurd h (by decide)
  rw [if_neg c0] at h
  by_cases c1 : r = CharEsc
  · rw [if_pos c1] at h
    exact absurd h (by decide)
  rw [if_neg c1] at h
  by_cases c2 : r = CharInterrupt
  · rw [if_pos c2] at h
    exact absurd h (by decide)
  rw [if_neg c2] at h
  by_cases c3 : r = CharPrev
  · rw [if_pos c3] at h
    exact absurd h (by decide)
  rw [if_neg c3] at h
  by_cases c4 : r = CharNext
  · rw [if_pos c4] at h
    exact absurd h (by decide)
  rw [if_neg c4] at h
  by_cases c5 : r = CharLineStart
  · rw [if_pos c5] at h
    exact absurd h (by decide)
  rw [if_neg c5] at h
  by_cases c6 : r = CharLineEnd
  · rw [if_pos c6] at h
    exact absurd h (by decide)
  rw [if_neg c6] at h
  by_cases c7 : r = CharBackward
  · rw [if_pos c7] at h
    exact absurd h (by decide)
  rw [if_neg c7] at h
  by_cases c8 : r = CharForward
  · rw [if_pos c8] at h
    exact absurd h (by decide)
  rw [if_neg c8] at h
  by_cases c9 : r = CharBackspace ∨ r = CharCtrlH
  · rw [if_pos c9] at h
    exact absurd h (by decide)
  rw [if_neg c9] at h
  by_cases c10 : r = CharTab
  · rw [if_pos c10] at h
    exact absurd h (by decide)
  rw [if_neg c10] at h
  by_cases cdel : r = CharDelete
  · exact cdel
  rw [if_neg cdel] at h
  by_cases c20 : r = CharKill
  · rw [if_pos c20] at h
    exact absurd h (by decide)
  rw [if_neg c20] at h
  by_cases c21 : r = CharCtrlU
  · rw [if_pos c21] at h
    exact absurd h (by decide)
  rw [if_neg c21] at h
  by_cases c22 : r = CharCtrlL
  · rw [if_pos c22] at h
    exact absurd h (by decide)
  rw [if_neg c22] at h
  by_cases c23 : r = CharCtrlO
  · rw [if_pos c23] at h
    exact absurd h (by decide)
  rw [if_neg c23] at h
  by_cases c24 : r = CharCtrlW
  · rw [if_pos c24] at h
    exact absurd h (by decide)
  rw [if_neg c24] at h
  by_cases c25 : r = CharCtrlZ
  · rw [if_pos c25] at h
    exact absurd h (by decide)
  rw [if_neg c25] at h
  by_cases c26 : r = CharEnter ∨ r = CharCtrlJ
  · rw [if_pos c26] at h
    exact absurd h (by decide)
  rw [if_neg c26] at h
  exact absurd h (by decide)

/-! ### C5 -/

/-- C5: Readline reports end of input in exactly two situations: the input
stream fails (the stream is exhausted at the top of the loop, or amid the
three marker code points of a bracketed-paste sequence), or the forward-delete
control code arrives while the line buffer is empty; a forward delete on a
non-empty line instead deletes the code point at the cursor and the loop
continues. -/
theorem eof_exactly_two_ways (tool : List Rune) (pagerH : Int) :
    (∀ s : RLState, step tool pagerH s [] = .done .eof s []) ∧
    (∀ (s : RLState) (rest : List Rune), s.esc = false → s.escex = false →
      s.buf.DisplaySize = 0 →
      step tool pagerH s (CharDelete :: rest) = .done .eof s rest) ∧
    (∀ (s : RLState) (rest : List Rune), s.esc = false → s.escex = false →
      0 < s.buf.DisplaySize →
      step tool pagerH s (CharDelete :: rest)
        = .cont { s with buf := s.buf.Delete } rest) ∧
    (∀ (s : RLState) (input : List Rune) (s2 : RLState) (rest2 : List Rune),
      step tool pagerH s input = .done .eof s2 rest2 →
      input = [] ∨ ∃ r rest, input = r :: rest ∧
        ((s.escex = true ∧ r = CharBracketedPaste ∧ rest.length < 3) ∨
          (s.esc = false ∧ s.escex = false ∧ r = CharDelete ∧
            s.buf.DisplaySize = 0))) := by
  refine ⟨fun s => rfl, ?_, ?_, ?_⟩
  · intro s rest h1 h2 h3
    simp [step, h1, h2, normalClassify_del, h3]
  · intro s rest h1 h2 h3
    simp [step, h1, h2, normalClassify_del, h3]
  · intro s input s2 rest2 h
    cases input with
    | nil => exact Or.inl rfl
    | cons r rest0 =>
      right
      refine ⟨r, rest0, rfl, ?_⟩
      simp only [step] at h
      by_cases he2 : s.escex
      · rw [if_pos (by simpa using he2)] at h
        left
        cases hc : escexClassify r with
        | up =>
            simp only [hc] at h
            simp at h
        | down =>
            simp only [hc] at h
            simp at h
        | left =>
            simp only [hc] at h
            simp at h
        | right =>
            simp only [hc] at h
            simp at h
        | del =>
            simp only [hc] at h
            simp at h
        | home =>
            simp only [hc] at h
            simp at h
        | endk =>
            simp only [hc] at h
            simp at h
        | unknown =>
            simp only [hc] at h
            simp at h
        | paste =>
            simp only [hc] at h
            rcases rest0 with _ | ⟨c1, _ | ⟨c2, _ | ⟨c3, r3⟩⟩⟩
            · exact ⟨by simpa using he2, escexClassify_paste_inv hc, by simp⟩
            · exact ⟨by simpa using he2, escexClassify_paste_inv hc, by simp⟩
            · exact ⟨by simpa using he2, escexClassify_paste_inv hc, by simp⟩
            · by_cases hs : [c1, c2, c3] = CharBracketedPasteStart
              · simp [hs] at h
              · by_cases hee : [c1, c2, c3] = CharBracketedPasteEnd
                · simp [hs, hee, CharBracketedPasteStart,
                    CharBracketedPasteEnd] at h
                · simp [hs, hee] at h
      · rw [if_neg (by simpa using he2)] at h
        by_cases he1 : s.esc
        · rw [if_pos (by simpa using he1)] at h
          cases hc : escClassify r <;> simp only [hc] at h <;> simp at h
        · rw [if_neg (by simpa using he1)] at h
          right
          cases hc : normalClassify r with
          | null =>
              simp only [hc] at h
              simp at h
          | escIntro =>
              simp only [hc] at h
              simp at h
          | interrupt =>
              simp only [hc] at h
              simp at h
          | histPrev =>
              simp only [hc] at h
              simp at h
          | histNext =>
              simp only [hc] at h
              simp at h
          | lineStart =>
              simp only [hc] at h
              simp at h
          | lineEnd =>
              simp only [hc] at h
              simp at h
          | moveBack =>
              simp only [hc] at h
              simp at h
          | moveForward =>
              simp only [hc] at h
              simp at h
          | backspace =>
              simp only [hc] at h
              simp at h
          | tab =>
              simp only [hc] at h
              simp at h
          | kill =>
              simp only [hc] at h
              simp at h
          | killToStart =>
              simp only [hc] at h
              simp at h
          | clearScreen =>
              simp only [hc] at h
              simp at h
          | delWord =>
              simp only [hc] at h
              simp at h
          | suspendKey =>
              simp only [hc] at h
              simp at h
          | del =>
              simp only [hc] at h
              split_ifs at h with hds
              all_goals try (exact ⟨by simpa using he1, by simpa using he2,
                normalClassify_del_inv hc, by omega⟩)
              all_goals simp at h
          | pagerKey =>
              simp only [hc] at h
              split_ifs at h <;> simp at h
          | enter =>
              simp only [hc] at h
              split_ifs at h <;> simp at h
          | other =>
              simp only [hc] at h
              split_ifs at h <;> simp at h

/-- Witness for C5: a forward delete on the empty buffer returns end of input,
and on the buffer xy deletes the code point at the cursor. -/
theorem eof_exactly_two_ways_witness :
    (step [] 23 ⟨⟨[], 0⟩, ⟨[], 0⟩, [], false, false, false, false⟩ [CharDelete]
      = .done .eof ⟨⟨[], 0⟩, ⟨[], 0⟩, [], false, false, false, false⟩ []) ∧
    (step [] 23 ⟨⟨[120, 121], 0⟩, ⟨[], 0⟩, [], false, false, false, false⟩
        [CharDelete]
      = .cont ⟨(Buffer.Delete ⟨[120, 121], 0⟩), ⟨[], 0⟩, [], false, false, false,
          false⟩ []) :=
  ⟨(eof_exactly_two_ways [] 23).2.1 _ [] rfl rfl rfl,
    (eof_exactly_two_ways [] 23).2.2.1 _ [] rfl rfl (by decide)⟩

/-! ### C3 -/

/-- C3: an escape introducer followed by a code point not recognized in the
Escape state — and likewise the two-step extended-escape introducer followed
by a code point not recognized in the EscapeExtended state — leaves the line
buffer content and cursor unchanged, emits no event (the code point is
discarded, never inserted as literal text), and returns the decoder to its
normal state: the loop continues on the remaining input in exactly the
original state. -/
theorem garbled_escape_ignored (tool : List Rune) (pagerH : Int) (s : RLState)
    (r : Rune) (rest : List Rune) (h1 : s.esc = false) (h2 : s.escex = false) :
    (escClassify r = .unknown →
      readLoop tool pagerH s (CharEsc :: r :: rest)
        = readLoop tool pagerH s rest) ∧
    (escexClassify r = .unknown →
      readLoop tool pagerH s (CharEsc :: CharEscapeEx :: r :: rest)
        = readLoop tool pagerH s rest) := by
  obtain ⟨bf, hh, cl, e1, e2, md, pa⟩ := s
  simp only at h1 h2
  subst h1
  subst h2
  have hstep1 : step tool pagerH ⟨bf, hh, cl, false, false, md, pa⟩
      (CharEsc :: r :: rest)
      = .cont ⟨bf, hh, cl, true, false, md, pa⟩ (r :: rest) := by
    simp [step, normalClassify_escIntro]
  constructor
  · intro hr
    have hstep2 : step tool pagerH ⟨bf, hh, cl, true, false, md, pa⟩ (r :: rest)
        = .cont ⟨bf, hh, cl, false, false, md, pa⟩ rest := by
      simp [step, hr]
    rw [readLoop_cont hstep1, readLoop_cont hstep2]
  · intro hr
    have hstep1x : step tool pagerH ⟨bf, hh, cl, false, false, md, pa⟩
        (CharEsc :: CharEscapeEx :: r :: rest)
        = .cont ⟨bf, hh, cl, true, false, md, pa⟩ (CharEscapeEx :: r :: rest) := by
      simp [step, normalClassify_escIntro]
    have hstep2 : step tool pagerH ⟨bf, hh, cl, true, false, md, pa⟩
        (CharEscapeEx :: r :: rest)
        = .cont ⟨bf, hh, cl, false, true, md, pa⟩ (r :: rest) := by
      simp [step, escClassify_escEx]
    have hstep3 : step tool pagerH ⟨bf, hh, cl, false, true, md, pa⟩ (r :: rest)
        = .cont ⟨bf, hh, cl, false, false, md, pa⟩ rest := by
      simp [step, hr]
    rw [readLoop_cont hstep1x, readLoop_cont hstep2, readLoop_cont hstep3]

/-- Witness for C3 at a concrete input: code point 120 (x) is recognized in
neither escape state; the buffer text ab survives both garbled sequences. -/
theorem garbled_escape_ignored_witness :
    (escClassify 120 = .unknown →
      readLoop [] 23 ⟨⟨[97, 98], 1⟩, ⟨[], 0⟩, [], false, false, false, false⟩
          (CharEsc :: 120 :: [CharEnter])
        = readLoop [] 23 ⟨⟨[97, 98], 1⟩, ⟨[], 0⟩, [], false, false, false, false⟩
          [CharEnter]) ∧
    (escexClassify 120 = .unknown →
      readLoop [] 23 ⟨⟨[97, 98], 1⟩, ⟨[], 0⟩, [], false, false, false, false⟩
          (CharEsc :: CharEscapeEx :: 120 :: [CharEnter])
        = readLoop [] 23 ⟨⟨[97, 98], 1⟩, ⟨[], 0⟩, [], false, false, false, false⟩
          [CharEnter]) :=
  garbled_escape_ignored [] 23 _ 120 [CharEnter] rfl rfl

/-! ### Independence of the Pasting flag

The loop dispatch never reads the Pasting flag (in the source it is consulted
only for prompt selection and placeholder suppression when rendering): one
step from a state with the flag replaced behaves identically apart from the
Pasting flag of the resulting state. -/

theorem applyHistPrev_mk (bf : Buffer) (hh : History) (cl : List Rune)
    (e1 e2 md pa : Bool) :
    applyHistPrev ⟨bf, hh, cl, e1, e2, md, pa⟩
      = ⟨(historyPrev bf hh cl).1, (historyPrev bf hh cl).2.1,
          (historyPrev bf hh cl).2.2, e1, e2, md, pa⟩ := rfl

theorem applyHistNext_mk (bf : Buffer) (hh : History) (cl : List Rune)
    (e1 e2 md pa : Bool) :
    applyHistNext ⟨bf, hh, cl, e1, e2, md, pa⟩
      = ⟨(historyNext bf hh cl).1, (historyNext bf hh cl).2.1,
          (historyNext bf hh cl).2.2, e1, e2, md, pa⟩ := rfl

theorem step_pasting (tool : List Rune) (pagerH : Int) (s : RLState) (b : Bool)
    (input : List Rune) :
    ∃ b2, step tool pagerH { s with Pasting := b } input =
      (match step tool pagerH s input with
        | .cont s1 rest => .cont { s1 with Pasting := b2 } rest
        | .done o s1 rest => .done o { s1 with Pasting := b2 } rest) := by
  obtain ⟨bf, hh, cl, e1, e2, md, pa⟩ := s
  cases input with
  | nil => exact ⟨b, rfl⟩
  | cons r rest =>
    cases e2 with
    | true =>
      cases hc : escexClassify r with
      | up => exact ⟨b, by simp [step, hc, applyHistPrev_mk]⟩
      | down => exact ⟨b, by simp [step, hc, applyHistNext_mk]⟩
      | left => exact ⟨b, by simp [step, hc]⟩
      | right => exact ⟨b, by simp [step, hc]⟩
      | del => exact ⟨b, by simp [step, hc]⟩
      | home => exact ⟨b, by simp [step, hc]⟩
      | endk => exact ⟨b, by simp [step, hc]⟩
      | unknown => exact ⟨b, by simp [step, hc]⟩
      | paste =>
          rcases rest with _ | ⟨c1, _ | ⟨c2, _ | ⟨c3, r3⟩⟩⟩
          · exact ⟨b, by simp [step, hc]⟩
          · exact ⟨b, by simp [step, hc]⟩
          · exact ⟨b, by simp [step, hc]⟩
          · by_cases hs : [c1, c2, c3] = CharBracketedPasteStart
            · exact ⟨true, by simp [step, hc, hs]⟩
            · by_cases hee : [c1, c2, c3] = CharBracketedPasteEnd
              · exact ⟨false, by simp [step, hc, hs, hee,
                  CharBracketedPasteStart, CharBracketedPasteEnd]⟩
              · exact ⟨b, by simp [step, hc, hs, hee]⟩
    | false =>
      cases e1 with
      | true =>
        cases hc : escClassify r with
        | wordLeft => exact ⟨b, by simp [step, hc]⟩
        | wordRight => exact ⟨b, by simp [step, hc]⟩
        | delWord => exact ⟨b, by simp [step, hc]⟩
        | escEx => exact ⟨b, by simp [step, hc]⟩
        | unknown => exact ⟨b, by simp [step, hc]⟩
      | false =>
        cases hc : normalClassify r with
        | histPrev => exact ⟨b, by simp [step, hc, applyHistPrev_mk]⟩
        | histNext => exact ⟨b, by simp [step, hc, applyHistNext_mk]⟩
        | null => exact ⟨b, by simp [step, hc]⟩
        | escIntro => exact ⟨b, by simp [step, hc]⟩
        | interrupt => exact ⟨b, by simp [step, hc]⟩
        | lineStart => exact ⟨b, by simp [step, hc]⟩
        | lineEnd => exact ⟨b, by simp [step, hc]⟩
        | moveBack => exact ⟨b, by simp [step, hc]⟩
        | moveForward => exact ⟨b, by simp [step, hc]⟩
        | backspace => exact ⟨b, by simp [step, hc]⟩
        | tab => exact ⟨b, by simp [step, hc]⟩
        | kill => exact ⟨b, by simp [step, hc]⟩
        | killToStart => exact ⟨b, by simp [step, hc]⟩
        | clearScreen => exact ⟨b, by simp [step, hc]⟩
        | delWord => exact ⟨b, by simp [step, hc]⟩
        | suspendKey => exact ⟨b, by simp [step, hc]⟩
        | del =>
            by_cases hds : 0 < bf.DisplaySize
            · exact ⟨b, by simp [step, hc, hds]⟩
            · exact ⟨b, by simp [step, hc, hds]⟩
        | pagerKey =>
            by_cases htool : tool = []
            · exact ⟨b, by simp [step, hc, htool]⟩
            · exact ⟨b, by simp [step, hc, htool]⟩
        | enter =>
            by_cases hne : bf.text = []
            · exact ⟨b, by simp [step, hc, hne]⟩
            · exact ⟨b, by simp [step, hc, hne]⟩
        | other =>
            cases md with
            | true => exact ⟨b, by simp [step, hc]⟩
            | false =>
                by_cases hr : CharSpace ≤ r ∨ r = CharEnter ∨ r = CharCtrlJ
                · exact ⟨b, by simp [step, hc, hr]⟩
                · exact ⟨b, by simp [step, hc, hr]⟩

/-- The whole loop never reads the Pasting flag: outcome, remaining input
and the final state apart from its Pasting flag agree. -/
theorem readLoop_pasting (tool : List Rune) (pagerH : Int) :
    ∀ (n : Nat) (input : List Rune), input.length ≤ n → ∀ (s : RLState) (b : Bool),
      ∃ b2, readLoop tool pagerH { s with Pasting := b } input =
        ((readLoop tool pagerH s input).1,
          { (readLoop tool pagerH s input).2.1 with Pasting := b2 },
          (readLoop tool pagerH s input).2.2) := by
  intro n
  induction n with
  | zero =>
      intro input hlen s b
      have hnil : input = [] := by
        cases input with
        | nil => rfl
        | cons a l => simp at hlen
      subst hnil
      refine ⟨b, ?_⟩
      rw [readLoop_done (show step tool pagerH { s with Pasting := b } [] = .done .eof { s with Pasting := b } [] from rfl)]
      rw [readLoop_done (show step tool pagerH s [] = .done .eof s [] from rfl)]
  | succ n ih =>
      intro input hlen s b
      obtain ⟨b1, hstep⟩ := step_pasting tool pagerH s b input
      cases hres : step tool pagerH s input with
      | done o s1 rest =>
          rw [hres] at hstep
          simp only at hstep
          rw [readLoop_done hstep, readLoop_done hres]
          exact ⟨b1, rfl⟩
      | cont s1 rest =>
          rw [hres] at hstep
          simp only at hstep
          rw [readLoop_cont hstep, readLoop_cont hres]
          have hlt : rest.length < input.length := step_cont_lt hres
          exact ih rest (by omega) s1 b1


/-! ### C4 -/

/-- C4: after the bracketed-paste introducer is recognized in the
extended-escape state, exactly three more code points are read synchronously
and compared against the two fixed 3-point markers: the start marker sets the
paste flag, the end marker clears it, and any other 3-point sequence leaves it
unchanged — in all three cases nothing else of the state changes and the loop
continues right after the three code points.  Moreover the paste flag affects
only prompt selection and placeholder suppression: it never influences the
outcome, the line-buffer content, or the input consumed by the loop. -/
theorem bracketed_paste_markers (tool : List Rune) (pagerH : Int) :
    (∀ (s : RLState) (c1 c2 c3 : Rune) (rest : List Rune), s.escex = true →
      step tool pagerH s (CharBracketedPaste :: c1 :: c2 :: c3 :: rest)
        = .cont { s with escex := false, Pasting := if [c1, c2, c3] = CharBracketedPasteStart then true else if [c1, c2, c3] = CharBracketedPasteEnd then false else s.Pasting } rest) ∧
    (∀ (s : RLState) (b : Bool) (input : List Rune),
      (readLoop tool pagerH { s with Pasting := b } input).1
          = (readLoop tool pagerH s input).1 ∧
        (readLoop tool pagerH { s with Pasting := b } input).2.1.buf
          = (readLoop tool pagerH s input).2.1.buf ∧
        (readLoop tool pagerH { s with Pasting := b } input).2.2
          = (readLoop tool pagerH s input).2.2) ∧
    (∀ p : ReadlinePkg.Prompt, promptShown p true = p.AltPrompt) ∧
    (∀ p : ReadlinePkg.Prompt, placeholderShown p true = p.UseAlt) := by
  refine ⟨?_, ?_, fun p => rfl, fun p => rfl⟩
  · intro s c1 c2 c3 rest h2
    obtain ⟨bf, hh, cl, e1, e2, md, pa⟩ := s
    simp only at h2
    subst h2
    by_cases hs : [c1, c2, c3] = CharBracketedPasteStart
    · simp [step, escexClassify_pasteKey, hs]
    · by_cases hee : [c1, c2, c3] = CharBracketedPasteEnd
      · simp [step, escexClassify_pasteKey, hs, hee,
          CharBracketedPasteStart, CharBracketedPasteEnd]
      · simp [step, escexClassify_pasteKey, hs, hee]
  · intro s b input
    obtain ⟨b2, h⟩ := readLoop_pasting tool pagerH input.length input le_rfl s b
    rw [h]
    exact ⟨rfl, rfl, rfl⟩

/-- Witness for C4: the start marker read after the introducer in the
extended-escape state sets the paste flag. -/
theorem bracketed_paste_markers_witness :
    step [] 23 ⟨⟨[], 0⟩, ⟨[], 0⟩, [], false, true, false, false⟩
        (CharBracketedPaste :: 48 :: 48 :: 126 :: [])
      = .cont ⟨⟨[], 0⟩, ⟨[], 0⟩, [], false, false, false, if ([48, 48, 126] : List Rune) = CharBracketedPasteStart then true else if ([48, 48, 126] : List Rune) = CharBracketedPasteEnd then false else false⟩ [] :=
  (bracketed_paste_markers [] 23).1
    ⟨⟨[], 0⟩, ⟨[], 0⟩, [], false, true, false, false⟩ 48 48 126 [] rfl

/-! ### C10 -/

/-- C10: paste mode does not disable control-code handling: an interrupt
control code is dispatched in the normal decoder state whatever the paste
flag holds; in particular, after a complete bracketed-paste start marker the
very next interrupt code point terminates the loop with the interrupt outcome
while the paste flag is set, and in general the outcome of the loop is
independent of the paste flag, so every control code keeps its command
meaning while paste mode is active. -/
theorem interrupt_during_paste (tool : List Rune) (pagerH : Int) :
    (∀ (s : RLState) (rest : List Rune), s.esc = false → s.escex = false →
      step tool pagerH s (CharInterrupt :: rest) = .done .interrupt s rest) ∧
    (∀ (s : RLState) (rest : List Rune), s.esc = false → s.escex = false →
      readLoop tool pagerH s
          (CharEsc :: CharEscapeEx :: CharBracketedPaste :: 48 :: 48 :: 126 ::
            CharInterrupt :: rest)
        = (.interrupt, { s with Pasting := true }, rest)) ∧
    (∀ (s : RLState) (b : Bool) (input : List Rune),
      (readLoop tool pagerH { s with Pasting := b } input).1
        = (readLoop tool pagerH s input).1) := by
  refine ⟨?_, ?_, ?_⟩
  · intro s rest h1 h2
    obtain ⟨bf, hh, cl, e1, e2, md, pa⟩ := s
    simp only at h1 h2
    subst h1
    subst h2
    simp [step, normalClassify_interrupt]
  · intro s rest h1 h2
    obtain ⟨bf, hh, cl, e1, e2, md, pa⟩ := s
    simp only at h1 h2
    subst h1
    subst h2
    have hstep1 : step tool pagerH ⟨bf, hh, cl, false, false, md, pa⟩
        (CharEsc :: CharEscapeEx :: CharBracketedPaste :: 48 :: 48 :: 126 ::
          CharInterrupt :: rest)
        = .cont ⟨bf, hh, cl, true, false, md, pa⟩
            (CharEscapeEx :: CharBracketedPaste :: 48 :: 48 :: 126 ::
              CharInterrupt :: rest) := by
      simp [step, normalClassify_escIntro]
    have hstep2 : step tool pagerH ⟨bf, hh, cl, true, false, md, pa⟩
        (CharEscapeEx :: CharBracketedPaste :: 48 :: 48 :: 126 ::
          CharInterrupt :: rest)
        = .cont ⟨bf, hh, cl, false, true, md, pa⟩
            (CharBracketedPaste :: 48 :: 48 :: 126 :: CharInterrupt :: rest) := by
      simp [step, escClassify_escEx]
    have hstep3 : step tool pagerH ⟨bf, hh, cl, false, true, md, pa⟩
        (CharBracketedPaste :: 48 :: 48 :: 126 :: CharInterrupt :: rest)
        = .cont ⟨bf, hh, cl, false, false, md, true⟩ (CharInterrupt :: rest) := by
      simp [step, escexClassify_pasteKey, CharBracketedPasteStart]
    have hstep4 : step tool pagerH ⟨bf, hh, cl, false, false, md, true⟩
        (CharInterrupt :: rest)
        = .done .interrupt ⟨bf, hh, cl, false, false, md, true⟩ rest := by
      simp [step, normalClassify_interrupt]
    rw [readLoop_cont hstep1, readLoop_cont hstep2, readLoop_cont hstep3,
      readLoop_done hstep4]
  · intro s b input
    obtain ⟨b2, h⟩ := readLoop_pasting tool pagerH input.length input le_rfl s b
    rw [h]

/-- Witness for C10: a paste-start marker followed by the interrupt code
terminates with the interrupt outcome from the initial state. -/
theorem interrupt_during_paste_witness :
    readLoop [] 23 ⟨⟨[], 0⟩, ⟨[], 0⟩, [], false, false, false, false⟩
        (CharEsc :: CharEscapeEx :: CharBracketedPaste :: 48 :: 48 :: 126 ::
          CharInterrupt :: [])
      = (.interrupt, ⟨⟨[], 0⟩, ⟨[], 0⟩, [], false, false, false, true⟩, []) :=
  (interrupt_during_paste [] 23).2.1
    ⟨⟨[], 0⟩, ⟨[], 0⟩, [], false, false, false, false⟩ [] rfl rfl

/-! ### C8 -/

/-- C8: the delete key in the extended-escape state performs a forward delete
(only when the line is non-empty) and arms the meta-delete suppression flag;
the armed flag makes the next code point that reaches the default case of the
normal switch be swallowed — no insert, no other action — and clears the
flag, so a second such code point is processed normally (inserted when
printable). -/
theorem meta_delete_suppression (tool : List Rune) (pagerH : Int) (s : RLState)
    (r : Rune) (rest : List Rune) :
    (s.escex = true →
      step tool pagerH s (KeyDel :: rest)
        = .cont { s with escex := false, metaDel := true, buf := if 0 < s.buf.DisplaySize then s.buf.Delete else s.buf } rest) ∧
    (s.esc = false → s.escex = false → s.metaDel = true →
      normalClassify r = .other →
      step tool pagerH s (r :: rest) = .cont { s with metaDel := false } rest) ∧
    (s.esc = false → s.escex = false → s.metaDel = false →
      normalClassify r = .other → CharSpace ≤ r →
      step tool pagerH s (r :: rest)
        = .cont { s with buf := s.buf.Add r } rest) := by
  obtain ⟨bf, hh, cl, e1, e2, md, pa⟩ := s
  refine ⟨?_, ?_, ?_⟩
  · intro h2
    simp only at h2
    subst h2
    simp [step, escexClassify_delKey]
  · intro h1 h2 hmd hcl
    simp only at h1 h2 hmd
    subst h1
    subst h2
    subst hmd
    simp [step, hcl]
  · intro h1 h2 hmd hcl hr
    simp only at h1 h2 hmd
    subst h1
    subst h2
    subst hmd
    simp [step, hcl, hr]

/-- Witness for C8: delete key with the buffer a and cursor 0, then code point
120 swallowed, then code point 120 inserted. -/
theorem meta_delete_suppression_witness :
    (step [] 23 ⟨⟨[97], 0⟩, ⟨[], 0⟩, [], false, true, false, false⟩ [KeyDel]
      = .cont ⟨(if 0 < Buffer.DisplaySize ⟨[97], 0⟩ then Buffer.Delete ⟨[97], 0⟩
          else ⟨[97], 0⟩), ⟨[], 0⟩, [], false, false, true, false⟩ []) ∧
    (step [] 23 ⟨⟨[], 0⟩, ⟨[], 0⟩, [], false, false, true, false⟩ [120]
      = .cont ⟨⟨[], 0⟩, ⟨[], 0⟩, [], false, false, false, false⟩ []) ∧
    (step [] 23 ⟨⟨[], 0⟩, ⟨[], 0⟩, [], false, false, false, false⟩ [120]
      = .cont ⟨Buffer.Add ⟨[], 0⟩ 120, ⟨[], 0⟩, [], false, false, false,
          false⟩ []) :=
  ⟨(meta_delete_suppression [] 23 ⟨⟨[97], 0⟩, ⟨[], 0⟩, [], false, true, false,
      false⟩ 120 []).1 rfl,
    (meta_delete_suppression [] 23 ⟨⟨[], 0⟩, ⟨[], 0⟩, [], false, false, true,
      false⟩ 120 []).2.1 rfl rfl rfl (by decide),
    (meta_delete_suppression [] 23 ⟨⟨[], 0⟩, ⟨[], 0⟩, [], false, false, false,
      false⟩ 120 []).2.2 rfl rfl rfl (by decide) (by decide)⟩

/-! ### C7 -/

/-- C7: the pager trigger with non-empty content enters the pager, which
consumes pager input until it exits at whatever offset; the loop then
continues on the remaining input in exactly the original editing state — line
buffer content and cursor, history log and position, saved draft, paste flag
and decoder flags are all unchanged. -/
theorem pager_preserves_session (tool : List Rune) (pagerH : Int) (s : RLState)
    (input : List Rune) (h1 : s.esc = false) (h2 : s.escex = false)
    (ht : tool ≠ []) :
    step tool pagerH s (CharCtrlO :: input)
      = .cont s (showPager ((pagerLines tool).length : Int) pagerH 0 input) ∧
    readLoop tool pagerH s (CharCtrlO :: input)
      = readLoop tool pagerH s
          (showPager ((pagerLines tool).length : Int) pagerH 0 input) := by
  have hstep : step tool pagerH s (CharCtrlO :: input)
      = .cont s (showPager ((pagerLines tool).length : Int) pagerH 0 input) := by
    obtain ⟨bf, hh, cl, e1, e2, md, pa⟩ := s
    simp only at h1 h2
    subst h1
    subst h2
    simp [step, normalClassify_pagerKey, ht]
  exact ⟨hstep, readLoop_cont hstep⟩

/-- Witness for C7: pager content x, quit immediately with q, then Enter. -/
theorem pager_preserves_session_witness :
    step [120] 23 ⟨⟨[97], 1⟩, ⟨[], 0⟩, [], false, false, false, false⟩
        (CharCtrlO :: [113, CharEnter])
      = .cont ⟨⟨[97], 1⟩, ⟨[], 0⟩, [], false, false, false, false⟩
          (showPager ((pagerLines [120]).length : Int) 23 0 [113, CharEnter]) ∧
    readLoop [120] 23 ⟨⟨[97], 1⟩, ⟨[], 0⟩, [], false, false, false, false⟩
        (CharCtrlO :: [113, CharEnter])
      = readLoop [120] 23 ⟨⟨[97], 1⟩, ⟨[], 0⟩, [], false, false, false, false⟩
          (showPager ((pagerLines [120]).length : Int) 23 0 [113, CharEnter]) :=
  pager_preserves_session [120] 23 _ [113, CharEnter] rfl rfl (by simp)

/-! ### C9 -/

/-- C9: on every exit path of Readline — normal completion via Enter, end of
input, interrupt, suspension, or the raw-mode enable error — the rawmode flag
of the terminal is false when control returns to the caller. -/
theorem readline_releases_raw_mode (setRawOk : Bool) (tool : List Rune)
    (pagerH : Int) (pasting : Bool) (hist : History) (rawmode : Bool)
    (input : List Rune) :
    (Readline setRawOk tool pagerH pasting hist rawmode input).2 = false := by
  unfold Readline
  split
  · rename_i hcond
    simpa using hcond.1
  · split <;> rfl

/-! ### C6 -/

/-- C6: for pager content of N lines and viewport height H, the pager offset
stays within [0, max 0 (N - H)] after every command of any sequence of
line-down, line-up, page-down, page-up, jump-to-top and jump-to-bottom
commands executed from offset 0 (every prefix of a sequence being itself a
sequence, the bound holds after each individual command). -/
theorem pager_offset_clamped (N H : Int) (cmds : List PagerCmd) (hH : 0 ≤ H) :
    0 ≤ cmds.foldl (pagerApply N H) 0 ∧
      cmds.foldl (pagerApply N H) 0 ≤ max 0 (N - H) :=
  pagerApply_foldl_bounds N H hH cmds 0 le_rfl (le_max_left 0 _)

/-! ### C2 -/

/-- C2: with history entries a, b, c recorded in that order and any live draft
in the buffer, three prev navigation events load c, b, a in that order, and
three next events then load b, c, and finally the original draft exactly with
the cursor at its end; moreover, from any non-browsing position with the
cursor at the end of the typed draft, one prev followed by one next restores
the buffer exactly and leaves the history log and position unchanged. -/
theorem history_round_trip :
    (∀ (draft : List Rune) (c : Nat) (clb0 : List Rune),
      let h0 : History := ⟨[[97], [98], [99]], 3⟩
      let p1 := historyPrev ⟨draft, c⟩ h0 clb0
      let p2 := historyPrev p1.1 p1.2.1 p1.2.2
      let p3 := historyPrev p2.1 p2.2.1 p2.2.2
      let n1 := historyNext p3.1 p3.2.1 p3.2.2
      let n2 := historyNext n1.1 n1.2.1 n1.2.2
      let n3 := historyNext n2.1 n2.2.1 n2.2.2
      p1.1.text = [99] ∧ p2.1.text = [98] ∧ p3.1.text = [97] ∧
        n1.1.text = [98] ∧ n2.1.text = [99] ∧ n3.1 = ⟨draft, draft.length⟩) ∧
    (∀ (buf : Buffer) (hist : History) (clb : List Rune),
      hist.Pos = hist.Size → buf.cursor = buf.text.length →
      let p := historyPrev buf hist clb
      let n := historyNext p.1 p.2.1 p.2.2
      n.1 = buf ∧ n.2.1 = hist) := by
  constructor
  · intro draft c clb0
    simp [historyPrev, historyNext, History.Prev, History.Next, History.Size,
      Buffer.Replace]
  · intro buf hist clb hpos hcur
    obtain ⟨bt, bc⟩ := buf
    obtain ⟨hb, hp⟩ := hist
    simp only [History.Size] at hpos
    subst hpos
    simp only at hcur
    subst hcur
    rcases hb with _ | ⟨e, es⟩
    · simp [historyPrev, historyNext, History.Prev, History.Next, History.Size]
    · simp [historyPrev, historyNext, History.Prev, History.Next, History.Size,
        Buffer.Replace]

/-- Witness for C2 at a concrete input: the draft hello with history a, b, c. -/
theorem history_round_trip_witness :
    let p := historyPrev ⟨[104, 101, 108, 108, 111], 5⟩ ⟨[[97], [98], [99]], 3⟩ []
    let n := historyNext p.1 p.2.1 p.2.2
    n.1 = ⟨[104, 101, 108, 108, 111], 5⟩ ∧ n.2.1 = ⟨[[97], [98], [99]], 3⟩ :=
  history_round_trip.2 ⟨[104, 101, 108, 108, 111], 5⟩ ⟨[[97], [98], [99]], 3⟩ []
    rfl rfl

/-! ### C1 -/

/-- C1: when an Enter code point arrives with the decoder in its normal state,
Readline terminates and returns the text of the line buffer exactly as it is
(including when it is empty), leaving the rest of the input unconsumed; the
returned text is appended to the history log if and only if it is
non-empty. -/
theorem enter_returns_buffer (tool : List Rune) (pagerH : Int) (s : RLState)
    (rest : List Rune) (h1 : s.esc = false) (h2 : s.escex = false) :
    (readLoop tool pagerH s (CharEnter :: rest)).1 = .line s.buf.text ∧
    (readLoop tool pagerH s (CharEnter :: rest)).2.2 = rest ∧
    (s.buf.text ≠ [] →
      (readLoop tool pagerH s (CharEnter :: rest)).2.1.hist.Buf
        = s.hist.Buf ++ [s.buf.text]) ∧
    (s.buf.text = [] →
      (readLoop tool pagerH s (CharEnter :: rest)).2.1.hist = s.hist) := by
  by_cases hne : s.buf.text = []
  · have hstep : step tool pagerH s (CharEnter :: rest)
        = .done (.line s.buf.text) { s with buf := s.buf.MoveToEnd } rest := by
      simp [step, h1, h2, normalClassify_enter, hne]
    rw [readLoop_done hstep]
    simp [hne]
  · have hstep : step tool pagerH s (CharEnter :: rest)
        = .done (.line s.buf.text)
            { s with hist := s.hist.Add s.buf.text, buf := s.buf.MoveToEnd } rest := by
      simp [step, h1, h2, normalClassify_enter, hne]
    rw [readLoop_done hstep]
    simp [hne, History.Add]

/-- Witness for C1 at concrete inputs: Enter on the text foo and Enter on the
empty line. -/
theorem enter_returns_buffer_witness :
    ((readLoop [] 23 ⟨⟨[102, 111, 111], 3⟩, ⟨[], 0⟩, [], false, false, false, false⟩
        [CharEnter]).1 = .line [102, 111, 111] ∧
      (readLoop [] 23 ⟨⟨[102, 111, 111], 3⟩, ⟨[], 0⟩, [], false, false, false, false⟩
        [CharEnter]).2.2 = [] ∧
      ([102, 111, 111] ≠ ([] : List Rune) →
        (readLoop [] 23 ⟨⟨[102, 111, 111], 3⟩, ⟨[], 0⟩, [], false, false, false, false⟩
          [CharEnter]).2.1.hist.Buf = ([] : List (List Rune)) ++ [[102, 111, 111]]) ∧
      (([102, 111, 111] : List Rune) = [] →
        (readLoop [] 23 ⟨⟨[102, 111, 111], 3⟩, ⟨[], 0⟩, [], false, false, false, false⟩
          [CharEnter]).2.1.hist = ⟨[], 0⟩)) :=
  enter_returns_buffer [] 23 _ [] rfl rfl

/-- Witness for C6 at a concrete input. -/
theorem pager_offset_clamped_witness :
    0 ≤ [PagerCmd.pageDown, PagerCmd.lineDown, PagerCmd.bottom, PagerCmd.pageUp,
          PagerCmd.lineUp, PagerCmd.top].foldl (pagerApply 10 4) 0 ∧
      [PagerCmd.pageDown, PagerCmd.lineDown, PagerCmd.bottom, PagerCmd.pageUp,
          PagerCmd.lineUp, PagerCmd.top].foldl (pagerApply 10 4) 0 ≤ max 0 (10 - 4) :=
  pager_offset_clamped 10 4 _ (by norm_num)

end ReadlinePkg
